import Mathlib

/-!
Shallow embedding of `src/scraper.py` (ContentScraper) and proofs of the
specification claims about it.

Python strings are modelled as Lean `String` (a wrapper around `List Char`).
Python's `str.strip` / `\s` use Unicode whitespace; we model whitespace with
`Char.isWhitespace` (an ASCII approximation — the claims proved here are
insensitive to which exact characters count as whitespace).  Python's
`str.lower` is modelled by `Char.toLower` (ASCII lowering; non-ASCII
characters are removed by the subsequent `[^a-z0-9\-]` filter either way).
-/

namespace ContentScraper

/-- Model of Python whitespace (`str.strip()`, `str.split()`, regex `\s`). -/
def isPySpace (c : Char) : Bool := c.isWhitespace

/-- Characters kept by the regex class `[a-z0-9\-]` in `slugify`. -/
def isSlugChar (c : Char) : Bool :=
  ('a' ≤ c && c ≤ 'z') || ('0' ≤ c && c ≤ '9') || c == '-'

/-- Replace every maximal run of characters satisfying `p` by the single
character `r`; the `inRun` flag records whether the previous character was
part of a run.  This is the semantics of `re.sub(p+, r, s)` on a maximal-run
basis (for `re.sub(r"-\x7b2,\x7d", "-", s)` a run of length one is left
untouched by the regex, but rewriting it to the same single `-` gives the
identical result). -/
def collapseRuns (p : Char → Bool) (r : Char) : Bool → List Char → List Char
  | _, [] => []
  | inRun, c :: cs =>
    if p c then
      if inRun then collapseRuns p r true cs
      else r :: collapseRuns p r true cs
    else c :: collapseRuns p r false cs

/-- Python `str.strip()` on a character list: drop whitespace from both ends. -/
def pyStripList (l : List Char) : List Char :=
  ((l.dropWhile isPySpace).reverse.dropWhile isPySpace).reverse

/-- Python `str.strip()`. -/
def pyStrip (s : String) : String := ⟨pyStripList s.data⟩

/-- Python `str.strip("-")`: drop `-` from both ends. -/
def stripDashes (l : List Char) : List Char :=
  ((l.dropWhile (· == '-')).reverse.dropWhile (· == '-')).reverse

/-- Function `slugify` from `src/scraper.py` lines 15–20:

    s = (s or "").strip().lower()
    s = re.sub(r"\s+", "-", s)
    s = re.sub(r"[^a-z0-9\-]+", "", s)
    s = re.sub(r"-\x7b2,\x7d", "-", s).strip("-")
    return s or "page"
-/
def slugify (s : String) : String :=
  let l0 := pyStripList s.data
  let l1 := l0.map Char.toLower
  let l2 := collapseRuns isPySpace '-' false l1
  let l3 := l2.filter isSlugChar
  let l4 := collapseRuns (· == '-') '-' false l3
  let l5 := stripDashes l4
  if l5.isEmpty then "page" else ⟨l5⟩

/-- Holds (as `true`) iff the character list has no two adjacent `-` characters
(spec-side checker for the Slug Generator claim). -/
def noDoubleDash : List Char → Bool
  | c :: d :: rest => !(c == '-' && d == '-') && noDoubleDash (d :: rest)
  | _ => true

/-- Holds (as `true`) iff the list is empty or its first character is not `-`. -/
def headNotDash : List Char → Bool
  | [] => true
  | c :: _ => !(c == '-')

/-- Spec-side checker for the Slug Generator output contract: non-empty,
only `[a-z0-9-]` characters, no leading or trailing hyphen, no two
consecutive hyphens. -/
def isValidSlug (s : String) : Bool :=
  !s.data.isEmpty
    && s.data.all isSlugChar
    && headNotDash s.data
    && headNotDash s.data.reverse
    && noDoubleDash s.data

/-- Decimal digits of `n` (most significant first); `fuel` bounds the
recursion depth and any `fuel > n` suffices.  Models Python's decimal
rendering of a non-negative integer. -/
def decDigitsAux : Nat → Nat → List Char
  | 0, _ => []
  | fuel + 1, n =>
    if n < 10 then [Nat.digitChar n]
    else decDigitsAux fuel (n / 10) ++ [Nat.digitChar (n % 10)]

/-- Python's decimal rendering of a natural number (an f-string field). -/
def pyDecimal (n : Nat) : String := ⟨decDigitsAux (n + 1) n⟩

/-- Numeric value of a decimal digit string; proof helper, a left inverse
of `decDigitsAux`. -/
def decVal (l : List Char) : Nat :=
  l.foldl (fun a c => 10 * a + (c.toNat - 48)) 0

/-- The `i`-th candidate file name tried by `unique_path`:
`base_name ++ ext` first, then suffixes `-2`, `-3`, … before `ext`. -/
def candName (base_name ext : String) : Nat → String
  | 0 => base_name ++ ext
  | k + 1 => base_name ++ "-" ++ pyDecimal (k + 2) ++ ext

/-- Index-search loop of `unique_path`: starting at candidate index `k`,
return the first index whose candidate name is not taken.  The Python loop
is unbounded; `files.length + 2` attempts always suffice because candidate
names are pairwise distinct (proved below), so the bounded search models
the loop faithfully. -/
def firstFreeAux (files : List String) (base_name ext : String) : Nat → Nat → Nat
  | 0, k => k
  | fuel + 1, k =>
    if files.contains (candName base_name ext k) then
      firstFreeAux files base_name ext fuel (k + 1)
    else k

/-- Function `unique_path` from `src/scraper.py` lines 22–32, with the directory
state modelled as the list `files` of names existing in `base_dir`. -/
def unique_path (files : List String) (base_name ext : String) : String :=
  candName base_name ext (firstFreeAux files base_name ext (files.length + 2) 0)

/-- Python `str.split()` (split on whitespace runs, no empty pieces);
`acc` holds the current word, reversed. -/
def pyWordsAux : List Char → List Char → List String
  | [], acc => if acc.isEmpty then [] else [⟨acc.reverse⟩]
  | c :: cs, acc =>
    if isPySpace c then
      if acc.isEmpty then pyWordsAux cs []
      else (⟨acc.reverse⟩ : String) :: pyWordsAux cs []
    else pyWordsAux cs (c :: acc)

/-- Heading-text normalization in `collect_headings`:
`" ".join(text.split())`. -/
def normalizeWs (s : String) : String :=
  String.intercalate " " (pyWordsAux s.data [])

/-- Function `collect_headings` from `src/scraper.py` lines 43–50.  The parsed
document is modelled as the list `doc` of its heading elements in document
order, each as (level, raw text as `get_text` returns it); the outer loop
runs over levels 1–6 and `soup.select("h<lvl>")` yields the level-`lvl`
headings in document order. -/
def collect_headings (doc : List (Nat × String)) : List (Nat × String) :=
  (List.range' 1 6).flatMap (fun lvl =>
    (doc.filter (fun h => h.1 == lvl)).filterMap (fun h =>
      let text := normalizeWs h.2
      if text = "" then none else some (lvl, text)))

/-- Spec-side outline, written from the claim's words for comparison with
`collect_headings`: all headings of levels 1–6 in document order, each
whitespace-normalized, those empty after normalization omitted. -/
def docOrderOutline (doc : List (Nat × String)) : List (Nat × String) :=
  doc.filterMap (fun h =>
    if 1 ≤ h.1 ∧ h.1 ≤ 6 ∧ normalizeWs h.2 ≠ "" then some (h.1, normalizeWs h.2)
    else none)

/-- A `<meta>` element; only its `content` attribute matters here
(`none` = attribute missing). -/
structure MetaTag where
  content : Option String
deriving DecidableEq

/-- Meta-description extraction, `src/scraper.py` lines 76–79.  The two
`soup.find` results are the inputs.  Python's `A or B` over them is
modelled as "first found tag wins", treating a found tag as truthy.
(CPython's bs4 makes a childless `Tag` falsy, under which the guard
`if md_tag and ...` would never fire for `<meta>` tags at all; both
readings refute the claimed selection rule at the counterexample below.)
The empty string encodes "no description": the renderer prints the
description line exactly when the string is non-empty. -/
def extract_meta_desc (findDesc findOg : Option MetaTag) : String :=
  let md_tag := match findDesc with
    | some t => some t
    | none => findOg
  match md_tag with
  | some t =>
    match t.content with
    | some c => if c = "" then "" else pyStrip c
    | none => ""
  | none => ""

/-- Presence view of the extracted description: the renderer prints the
meta-description line iff this is `some`. -/
def extract_meta_desc_opt (findDesc findOg : Option MetaTag) : Option String :=
  let s := extract_meta_desc findDesc findOg
  if s = "" then none else some s

/-- The non-empty `content` attribute of a found tag, if any
(spec-side helper). -/
def tagContentNonempty : Option MetaTag → Option String
  | some t =>
    match t.content with
    | some c => if c = "" then none else some c
    | none => none
  | none => none

/-- Spec-side description, written from the claim's words: the content
attribute of the first of the two tags whose content attribute is
non-empty; `none` if neither has one. -/
def specMetaDesc (findDesc findOg : Option MetaTag) : Option String :=
  match tagContentNonempty findDesc with
  | some c => some c
  | none => tagContentNonempty findOg

/-- Python string repetition `s * n`. -/
def strRepeat (s : String) (n : Nat) : String :=
  String.join (List.replicate n s)

/-- Markdown assembly, `src/scraper.py` lines 119–142: the `lines` list.
`meta_desc = ""` encodes a missing description, as in the source;
`screenshot_rel = none` means no screenshot was taken. -/
def renderLines (title url meta_desc : String) (headings : List (Nat × String))
    (main_md : String) (tables : List String) (screenshot_rel : Option String) :
    List String :=
  let l1 := ["# " ++ title ++ "\n", "> Source: " ++ url ++ "\n"]
  let l2 := if meta_desc = "" then l1
    else l1 ++ ["> Meta description: " ++ meta_desc ++ "\n"]
  let l3 := if headings.isEmpty then l2
    else
      l2 ++ ["\n## Table of contents"]
        ++ headings.map (fun h =>
            strRepeat "  " (h.1 - 1) ++ "- [" ++ h.2 ++ "](#" ++ slugify h.2 ++ ")")
        ++ [""]
  let l4 := l3 ++ ["\n---\n", pyStrip main_md]
  let l5 := l4 ++ tables.enum.flatMap (fun p =>
    ["\n---\n\n### Table " ++ pyDecimal (p.1 + 1) ++ "\n", p.2])
  match screenshot_rel with
  | some rel => l5 ++ ["\n---\n\n![Screenshot](" ++ rel ++ ")"]
  | none => l5

/-- The written document: `"\n".join(lines)` (line 144). -/
def renderDoc (title url meta_desc : String) (headings : List (Nat × String))
    (main_md : String) (tables : List String) (screenshot_rel : Option String) :
    String :=
  String.intercalate "\n"
    (renderLines title url meta_desc headings main_md tables screenshot_rel)

/-- Data captured from the fetched page: the browser-reported title, the
two meta `find` results, the heading elements of the rendered document in
document order, and `str(soup.body or soup)` used when readability fails. -/
structure PageData where
  title : String
  findDesc : Option MetaTag
  findOg : Option MetaTag
  doc : List (Nat × String)
  bodyFallback : String

/-- Outcomes of the external capabilities used by one `scrape_url` call;
`Except.error` marks a raised exception. -/
structure ScrapeEnv where
  /-- Step `page.goto` + `page.content()` + `page.title()`; uncaught. -/
  nav : Except String PageData
  /-- Step `ReadabilityDoc(html)`, `summary`, `short_title`; caught (lines 85–91). -/
  readability : Except String (String × String)
  /-- Step `markdownify` (line 93); uncaught. -/
  convert : String → Except String String
  /-- Step `pd.read_html` + table rendering; caught (lines 96–101). -/
  tables : Except String (List String)
  /-- Step `page.screenshot` (line 114); uncaught. -/
  shoot : Except String Unit
  /-- Step `browser.close()` / context teardown (line 117); uncaught. -/
  close : Except String Unit
  /-- Values `urlparse(url).netloc` and `.path` (line 106). -/
  netloc : String
  upath : String
  /-- File names existing in `out_dir`, for `unique_path`. -/
  files : List String
  /-- File names existing in `out_dir/assets`. -/
  assetFiles : List String

/-- A filesystem effect of one `scrape_url` call. -/
inductive Effect where
  | mkdirAssets : Effect
  | mkdirData : Effect
  | writeShot : String → Effect
  | writeMd : String → String → Effect
deriving DecidableEq

def isMdWrite : Effect → Bool
  | .writeMd _ _ => true
  | _ => false

def isShotWrite : Effect → Bool
  | .writeShot _ => true
  | _ => false

/-- Title resolution in `scrape_url`: browser title, else readability
`short_title` (when readability succeeded), else `netloc + " " + path`,
else `"page"` (lines 75, 88–89, 104–107). -/
def resolve_title (rawTitle : String)
    (readability : Except String (String × String))
    (netloc upath : String) : String :=
  let title0 := pyStrip rawTitle
  let title1 := match readability with
    | Except.ok st => if title0 = "" then pyStrip st.2 else title0
    | Except.error _ => title0
  if title1 = "" then
    let t := pyStrip (netloc ++ " " ++ upath)
    if t = "" then "page" else t
  else title1

/-- Computes `base_name = slugify(title)[:80] or "page"` (line 108). -/
def base_name_of (title : String) : String :=
  if (⟨(slugify title).data.take 80⟩ : String) = "" then "page"
  else ⟨(slugify title).data.take 80⟩

/-- Result of one `scrape_url` call: its filesystem effects in order, and
the exception escaping the call, if any. -/
structure ScrapeOutput where
  effects : List Effect
  error : Option String
deriving DecidableEq

/-- Function `scrape_url` from `src/scraper.py` lines 55–145, at the granularity of
filesystem effects and raised exceptions.  `wait` and `scroll` only affect
timing and are ignored by the model. -/
def scrape_url (url : String) (env : ScrapeEnv) (_wait : Nat)
    (_scroll screenshot : Bool) : ScrapeOutput :=
  let dirs := [Effect.mkdirAssets, Effect.mkdirData]
  match env.nav with
  | Except.error e => ⟨dirs, some e⟩
  | Except.ok pd =>
    let meta_desc := extract_meta_desc pd.findDesc pd.findOg
    let headings := collect_headings pd.doc
    let main_html := match env.readability with
      | Except.ok st => st.1
      | Except.error _ => pd.bodyFallback
    match env.convert main_html with
    | Except.error e => ⟨dirs, some e⟩
    | Except.ok main_md =>
      let tables := match env.tables with
        | Except.ok ts => ts
        | Except.error _ => []
      let title := resolve_title pd.title env.readability env.netloc env.upath
      let base_name := base_name_of title
      let md_path := unique_path env.files base_name ".md"
      if screenshot then
        match env.shoot with
        | Except.error e => ⟨dirs, some e⟩
        | Except.ok _ =>
          let shot_path := unique_path env.assetFiles base_name ".png"
          match env.close with
          | Except.error e => ⟨dirs ++ [Effect.writeShot shot_path], some e⟩
          | Except.ok _ =>
            ⟨dirs ++ [Effect.writeShot shot_path,
              Effect.writeMd md_path
                (renderDoc title url meta_desc headings main_md tables
                  (some ("assets/" ++ shot_path)))],
             none⟩
      else
        match env.close with
        | Except.error e => ⟨dirs, some e⟩
        | Except.ok _ =>
          ⟨dirs ++ [Effect.writeMd md_path
            (renderDoc title url meta_desc headings main_md tables none)],
           none⟩

/-- Result of one pipeline invocation, as seen by the batch runner. -/
structure PipelineResult where
  effects : List Effect
  error : Option String

/-- Batch-runner outcome: exit code, whether the missing-file error was
reported, the URLs the pipeline was invoked on (in order), the per-URL
failures logged (with their URL), and all filesystem effects in order. -/
structure MainOutcome where
  exitCode : Nat
  missingFileReported : Bool
  processed : List String
  loggedFailures : List (String × String)
  effects : List Effect

/-- URL selection in `main` (lines 165–166):
`urls = [line.strip() for line in f if line.strip()]`. -/
def selectUrls (lines : List String) : List String :=
  (lines.filter (fun l => pyStrip l != "")).map pyStrip

/-- Function `main` from `src/scraper.py` lines 150–172.  The URL-list file is
modelled by `urlsFileExists` and its `lines`; the per-URL pipeline by the
oracle `pipeline : invocation index → URL → result` (`main` catches any
exception, logs it with the URL, and continues; lines 168–172). -/
def main_run (urlsFileExists : Bool) (lines : List String)
    (pipeline : Nat → String → PipelineResult) : MainOutcome :=
  if urlsFileExists then
    let urls := selectUrls lines
    let batch := (urls.take 5).enum
    { exitCode := 0
      missingFileReported := false
      processed := urls.take 5
      loggedFailures := batch.filterMap (fun p =>
        ((pipeline p.1 p.2).error).map (fun e => (p.2, e)))
      effects := (batch.map (fun p => (pipeline p.1 p.2).effects)).flatten }
  else
    { exitCode := 1
      missingFileReported := true
      processed := []
      loggedFailures := []
      effects := [] }

/-- A pipeline oracle for the batch-isolation scenario: the second
invocation (index 1) raises, every other invocation writes one Markdown
file named after its URL. -/
def pipelineFail2 : Nat → String → PipelineResult := fun i u =>
  if i = 1 then ⟨[], some "boom"⟩
  else ⟨[Effect.writeMd (u ++ ".md") u], none⟩

/-- An environment whose run fails after the screenshot is written
(`browser.close` raises): used to exhibit an orphaned screenshot. -/
def envOrphan : ScrapeEnv :=
  { nav := Except.ok ⟨"T", none, none, [], "<body></body>"⟩
    readability := Except.error "readability failed"
    convert := fun h => Except.ok h
    tables := Except.error "no tables"
    shoot := Except.ok ()
    close := Except.error "close failed"
    netloc := "x"
    upath := "/"
    files := []
    assetFiles := [] }

/-- An 81-character title whose slug is itself: 79 `a`s, a hyphen, and `b`.
Its 80-character truncation ends in a hyphen. -/
def longTitle : String :=
  "aaaaaaaaaaaaaaaaaaaaaaaaaaaaaaaaaaaaaaaaaaaaaaaaaaaaaaaaaaaaaaaaaaaaaaaaaaaaaaa-b"

end ContentScraper

namespace ContentScraper

theorem mem_dropWhile {q : Char → Bool} {l : List Char} {c : Char}
    (h : c ∈ l.dropWhile q) : c ∈ l := by
  induction l with
  | nil => simp [List.dropWhile] at h
  | cons a as ih =>
    by_cases hq : q a = true
    · simp only [List.dropWhile, hq] at h
      exact List.mem_cons_of_mem a (ih h)
    · simp only [List.dropWhile, Bool.not_eq_true] at hq
      simpa [List.dropWhile, hq] using h

theorem mem_collapseRuns {p : Char → Bool} {r : Char} {b : Bool} {l : List Char} {c : Char}
    (h : c ∈ collapseRuns p r b l) : c = r ∨ c ∈ l := by
  induction l generalizing b with
  | nil => simp [collapseRuns] at h
  | cons a as ih =>
    by_cases hp : p a = true
    · cases b with
      | true =>
        simp only [collapseRuns, hp, if_true] at h
        rcases ih h with h' | h'
        · exact Or.inl h'
        · exact Or.inr (List.mem_cons_of_mem a h')
      | false =>
        simp only [collapseRuns, hp, if_true] at h
        rcases List.mem_cons.1 h with h' | h'
        · exact Or.inl h'
        · rcases ih h' with h'' | h''
          · exact Or.inl h''
          · exact Or.inr (List.mem_cons_of_mem a h'')
    · simp only [collapseRuns, hp, if_false, Bool.false_eq_true] at h
      rcases List.mem_cons.1 h with h' | h'
      · exact Or.inr (h' ▸ List.mem_cons_self a as)
      · rcases ih h' with h'' | h''
        · exact Or.inl h''
        · exact Or.inr (List.mem_cons_of_mem a h'')

theorem noDoubleDash_tail {c : Char} {l : List Char}
    (h : noDoubleDash (c :: l) = true) : noDoubleDash l = true := by
  cases l with
  | nil => rfl
  | cons d r => simp only [noDoubleDash, Bool.and_eq_true] at h; exact h.2

theorem noDoubleDash_dropWhile (q : Char → Bool) {l : List Char}
    (h : noDoubleDash l = true) : noDoubleDash (l.dropWhile q) = true := by
  induction l with
  | nil => simpa using h
  | cons a as ih =>
    by_cases hq : q a = true
    · simp only [List.dropWhile, hq]
      exact ih (noDoubleDash_tail h)
    · simp only [List.dropWhile, Bool.not_eq_true] at hq
      simpa [List.dropWhile, hq] using h

theorem noDoubleDash_append_singleton (l : List Char) (c : Char) :
    noDoubleDash (l ++ [c])
      = (noDoubleDash l && !(l.getLast? == some '-' && c == '-')) := by
  induction l with
  | nil => simp [noDoubleDash]
  | cons a as ih =>
    cases as with
    | nil => simp [noDoubleDash, Bool.and_comm]
    | cons b r =>
      have e0 : (a :: b :: r) ++ [c] = a :: ((b :: r) ++ [c]) := rfl
      have e1 : (b :: r) ++ [c] = b :: (r ++ [c]) := rfl
      have e2 : noDoubleDash (a :: b :: (r ++ [c]))
          = (!(a == '-' && b == '-') && noDoubleDash (b :: (r ++ [c]))) := rfl
      have e3 : noDoubleDash (a :: b :: r)
          = (!(a == '-' && b == '-') && noDoubleDash (b :: r)) := rfl
      rw [e0, e1, e2, ← e1, ih, List.getLast?_cons_cons, e3, Bool.and_assoc]

theorem noDoubleDash_reverse (l : List Char) :
    noDoubleDash l.reverse = noDoubleDash l := by
  induction l with
  | nil => rfl
  | cons a as ih =>
    cases as with
    | nil => rfl
    | cons b r =>
      have e1 : noDoubleDash (a :: b :: r)
          = (!(a == '-' && b == '-') && noDoubleDash (b :: r)) := rfl
      have e2 : (a :: b :: r).reverse = (b :: r).reverse ++ [a] := by simp
      rw [e2, noDoubleDash_append_singleton, ih, List.getLast?_reverse, e1]
      have e3 : (b :: r).head? = some b := rfl
      have e4 : (some b == some '-') = (b == '-') := rfl
      rw [e3, e4]
      cases hb : (b == '-') <;> cases ha : (a == '-') <;> simp [hb, ha]

theorem headNotDash_dropWhileDash (l : List Char) :
    headNotDash (l.dropWhile (· == '-')) = true := by
  induction l with
  | nil => rfl
  | cons a as ih =>
    by_cases ha : (a == '-') = true
    · simpa [List.dropWhile, ha] using ih
    · simp only [Bool.not_eq_true] at ha
      simp [List.dropWhile, ha, headNotDash]

theorem headNotDash_append_singleton {l : List Char} (c : Char) (h : l ≠ []) :
    headNotDash (l ++ [c]) = headNotDash l := by
  cases l with
  | nil => exact absurd rfl h
  | cons a as => rfl

theorem headNotDash_keepLast (q : Char → Bool) {l : List Char}
    (h : headNotDash l.reverse = true) :
    headNotDash ((l.dropWhile q).reverse) = true := by
  induction l with
  | nil => simpa using h
  | cons a as ih =>
    by_cases hq : q a = true
    · cases as with
      | nil => simp [List.dropWhile, hq, headNotDash]
      | cons b r =>
        simp only [List.dropWhile, hq, if_true]
        apply ih
        rw [List.reverse_cons] at h
        rwa [headNotDash_append_singleton a (by simp)] at h
    · simp only [List.dropWhile, Bool.not_eq_true] at hq
      simpa [List.dropWhile, hq] using h

theorem headNotDash_collapseDash_true (l : List Char) :
    headNotDash (collapseRuns (· == '-') '-' true l) = true := by
  induction l with
  | nil => rfl
  | cons a as ih =>
    by_cases ha : (a == '-') = true
    · simpa [collapseRuns, ha] using ih
    · simp only [Bool.not_eq_true] at ha
      simp [collapseRuns, ha, headNotDash]

theorem noDoubleDash_collapseDash (l : List Char) (b : Bool) :
    noDoubleDash (collapseRuns (· == '-') '-' b l) = true := by
  induction l generalizing b with
  | nil => cases b <;> rfl
  | cons a as ih =>
    by_cases ha : (a == '-') = true
    · cases b with
      | true => simpa [collapseRuns, ha] using ih true
      | false =>
        simp only [collapseRuns, ha, if_true]
        have h1 := headNotDash_collapseDash_true as
        have h2 := ih true
        cases hr : collapseRuns (· == '-') '-' true as with
        | nil => rfl
        | cons d r' =>
          rw [hr] at h1 h2
          simp only [headNotDash, Bool.not_eq_true'] at h1
          simp [noDoubleDash, h1, h2]
    · simp only [Bool.not_eq_true] at ha
      simp only [collapseRuns, ha, Bool.false_eq_true, if_false]
      have h2 := ih false
      cases hr : collapseRuns (· == '-') '-' false as with
      | nil => rfl
      | cons d r' =>
        rw [hr] at h2
        simp [noDoubleDash, ha, h2]

theorem isValidSlug_slugify (s : String) : isValidSlug (slugify s) = true := by
  unfold slugify
  set l3 := (collapseRuns isPySpace '-' false
      ((pyStripList s.data).map Char.toLower)).filter isSlugChar with hl3
  set l4 := collapseRuns (· == '-') '-' false l3 with hl4
  by_cases h5 : (stripDashes l4).isEmpty = true
  · simp only [h5, if_true]
    decide
  · simp only [h5, Bool.false_eq_true, if_false]
    have hall : ∀ c ∈ stripDashes l4, isSlugChar c = true := by
      intro c hc
      unfold stripDashes at hc
      rw [List.mem_reverse] at hc
      have hc2 := mem_dropWhile hc
      rw [List.mem_reverse] at hc2
      have hc3 := mem_dropWhile hc2
      rcases mem_collapseRuns hc3 with h | h
      · subst h; decide
      · exact (List.mem_filter.1 h).2
    have hndd : noDoubleDash (stripDashes l4) = true := by
      unfold stripDashes
      rw [noDoubleDash_reverse]
      apply noDoubleDash_dropWhile
      rw [noDoubleDash_reverse]
      apply noDoubleDash_dropWhile
      exact noDoubleDash_collapseDash l3 false
    have hhead : headNotDash (stripDashes l4) = true := by
      unfold stripDashes
      apply headNotDash_keepLast
      rw [List.reverse_reverse]
      exact headNotDash_dropWhileDash l4
    have hlast : headNotDash (stripDashes l4).reverse = true := by
      unfold stripDashes
      rw [List.reverse_reverse]
      exact headNotDash_dropWhileDash _
    simp only [isValidSlug, Bool.and_eq_true]
    refine ⟨⟨⟨⟨?_, ?_⟩, ?_⟩, ?_⟩, ?_⟩
    · simpa using h5
    · exact List.all_eq_true.2 hall
    · exact hhead
    · exact hlast
    · exact hndd

/-- Claim C7: for every input, `slugify` returns a non-empty string over
`[a-z0-9-]` with no leading or trailing hyphen and no two consecutive
hyphens; empty or fully-stripped input yields the literal `"page"`.
(The Lean embedding is a total function, matching purity/totality.) -/
theorem slugify_spec :
    (∀ s : String, isValidSlug (slugify s) = true)
    ∧ slugify "" = "page"
    ∧ slugify "  Hello, World!! " = "hello-world"
    ∧ slugify "日本語" = "page" :=
  ⟨isValidSlug_slugify, by decide, by decide, by decide⟩

end ContentScraper

namespace ContentScraper

theorem strData_append (s t : String) : (s ++ t).data = s.data ++ t.data := by
  cases s; cases t; rfl

theorem strData_inj {s t : String} (h : s.data = t.data) : s = t := by
  cases s; cases t; exact congrArg String.mk h

theorem digitChar_toNat {n : Nat} (h : n < 10) : (Nat.digitChar n).toNat = n + 48 := by
  interval_cases n <;> decide

theorem decDigitsAux_ne_nil (fuel n : Nat) : decDigitsAux (fuel + 1) n ≠ [] := by
  unfold decDigitsAux
  by_cases h : n < 10 <;> simp [h]

theorem decVal_decDigitsAux :
    ∀ fuel n : Nat, n < fuel → decVal (decDigitsAux fuel n) = n := by
  intro fuel
  induction fuel with
  | zero => intro n h; omega
  | succ f ih =>
    intro n h
    unfold decDigitsAux
    by_cases h10 : n < 10
    · simp only [h10, if_true]
      show 10 * 0 + ((Nat.digitChar n).toNat - 48) = n
      rw [digitChar_toNat h10]
      omega
    · simp only [h10, if_false]
      have hdiv : n / 10 < f := by
        have h1 : n / 10 < n := Nat.div_lt_self (by omega) (by omega)
        omega
      unfold decVal
      rw [List.foldl_append]
      have hv := ih (n / 10) hdiv
      unfold decVal at hv
      rw [hv]
      show 10 * (n / 10) + ((Nat.digitChar (n % 10)).toNat - 48) = n
      rw [digitChar_toNat (Nat.mod_lt n (by omega))]
      omega

theorem decDigits_inj {m n : Nat}
    (h : decDigitsAux (m + 1) m = decDigitsAux (n + 1) n) : m = n := by
  have hm := decVal_decDigitsAux (m + 1) m (Nat.lt_succ_self m)
  have hn := decVal_decDigitsAux (n + 1) n (Nat.lt_succ_self n)
  rw [← hm, ← hn, h]

theorem pyDecimal_data (n : Nat) : (pyDecimal n).data = decDigitsAux (n + 1) n := rfl

theorem candName_inj (base ext : String) :
    Function.Injective (candName base ext) := by
  intro j k h
  have hd : ∀ i : Nat, (pyDecimal i).data.length ≥ 1 := by
    intro i
    rw [pyDecimal_data]
    cases hne : decDigitsAux (i + 1) i with
    | nil => exact absurd hne (decDigitsAux_ne_nil i i)
    | cons a l => simp
  cases j with
  | zero =>
    cases k with
    | zero => rfl
    | succ k' =>
      exfalso
      have hl := congrArg (fun s : String => s.data.length) h
      simp only [candName, strData_append, List.length_append] at hl
      have h1 : ("-" : String).data.length = 1 := rfl
      have h2 := hd (k' + 2)
      omega
  | succ j' =>
    cases k with
    | zero =>
      exfalso
      have hl := congrArg (fun s : String => s.data.length) h
      simp only [candName, strData_append, List.length_append] at hl
      have h1 : ("-" : String).data.length = 1 := rfl
      have h2 := hd (j' + 2)
      omega
    | succ k' =>
      have hdata := congrArg String.data h
      simp only [candName, strData_append] at hdata
      rw [List.append_assoc, List.append_assoc, List.append_assoc,
        List.append_assoc] at hdata
      have h1 := List.append_cancel_left hdata
      have h2 := List.append_cancel_left h1
      have h3 := List.append_cancel_right h2
      have h4 : pyDecimal (j' + 2) = pyDecimal (k' + 2) := strData_inj h3
      have h5 := decDigits_inj (m := j' + 2) (n := k' + 2)
        (by rw [← pyDecimal_data, ← pyDecimal_data, h4])
      omega

theorem exists_cand_free (files : List String) (base ext : String) :
    ∃ k, k < files.length + 2 ∧ candName base ext k ∉ files := by
  by_contra hcon
  push_neg at hcon
  have hnd : ((List.range (files.length + 2)).map (candName base ext)).Nodup :=
    (List.nodup_range _).map (candName_inj base ext)
  have hsub : ((List.range (files.length + 2)).map (candName base ext)) ⊆ files := by
    intro x hx
    rcases List.mem_map.1 hx with ⟨k, hk, rfl⟩
    exact hcon k (List.mem_range.1 hk)
  have hle := (hnd.subperm hsub).length_le
  simp only [List.length_map, List.length_range] at hle
  omega

theorem firstFreeAux_spec (files : List String) (base ext : String) :
    ∀ fuel k0 : Nat,
      (∃ j, k0 ≤ j ∧ j < k0 + fuel ∧ candName base ext j ∉ files) →
      candName base ext (firstFreeAux files base ext fuel k0) ∉ files
      ∧ ∀ j, k0 ≤ j → j < firstFreeAux files base ext fuel k0 →
          candName base ext j ∈ files := by
  intro fuel
  induction fuel with
  | zero =>
    intro k0 h
    obtain ⟨j, h1, h2, _⟩ := h
    omega
  | succ f ih =>
    intro k0 h
    obtain ⟨j, h1, h2, h3⟩ := h
    unfold firstFreeAux
    by_cases hk : files.contains (candName base ext k0) = true
    · rw [if_pos hk]
      have hmem : candName base ext k0 ∈ files := by simpa using hk
      have hj : k0 + 1 ≤ j := by
        rcases Nat.eq_or_lt_of_le h1 with heq | hlt
        · exact absurd hmem (heq ▸ h3)
        · omega
      obtain ⟨r1, r2⟩ := ih (k0 + 1) ⟨j, hj, by omega, h3⟩
      refine ⟨r1, ?_⟩
      intro i hi1 hi2
      rcases Nat.eq_or_lt_of_le hi1 with heq | hlt
      · exact heq ▸ hmem
      · exact r2 i (by omega) hi2
    · rw [if_neg hk]
      have hnm : candName base ext k0 ∉ files := by simpa using hk
      exact ⟨hnm, fun i hi1 hi2 => absurd hi2 (by omega)⟩

/-- Claim C6: `unique_path` always returns a name not present in the
directory, found by trying `base ++ ext` first and then suffixes `-2`,
`-3`, … in increasing order up to the first unused one (so an existing
file is never overwritten); three successive calls for base `"base"` with
each returned file created before the next call yield `base.md`,
`base-2.md`, `base-3.md`. -/
theorem unique_path_spec :
    (∀ (files : List String) (base ext : String),
        files.contains (unique_path files base ext) = false
        ∧ ∃ k, unique_path files base ext = candName base ext k
            ∧ (List.range k).all (fun j => files.contains (candName base ext j)) = true)
    ∧ unique_path [] "base" ".md" = "base.md"
    ∧ unique_path ["base.md"] "base" ".md" = "base-2.md"
    ∧ unique_path ["base.md", "base-2.md"] "base" ".md" = "base-3.md" := by
  refine ⟨?_, by decide, by decide, by decide⟩
  intro files base ext
  obtain ⟨k, hk1, hk2⟩ := exists_cand_free files base ext
  obtain ⟨r1, r2⟩ := firstFreeAux_spec files base ext (files.length + 2) 0
    ⟨k, Nat.zero_le _, by omega, hk2⟩
  refine ⟨by simpa using r1, firstFreeAux files base ext (files.length + 2) 0, rfl, ?_⟩
  rw [List.all_eq_true]
  intro j hj
  have := r2 j (Nat.zero_le _) (List.mem_range.1 hj)
  simpa using this

end ContentScraper

namespace ContentScraper

/-- Claim C1: for a title `"T"`, source URL `"http://x"`, one heading
(level 2, `"Sec"`), no meta description, no tables and no screenshot, the
renderer produces exactly, in order: the title heading line, the source
blockquote line, the table-of-contents section with one link to `#sec`
indented by one two-space unit, the horizontal rule, then the converted
body — and no meta-description line, table section or screenshot section
anywhere.  The written document joins these lines with newlines. -/
theorem render_order_spec :
    ∀ body : String,
      renderLines "T" "http://x" "" [(2, "Sec")] body [] none
        = ["# T\n", "> Source: http://x\n", "\n## Table of contents",
           "  - [Sec](#sec)", "", "\n---\n", pyStrip body]
      ∧ renderDoc "T" "http://x" "" [(2, "Sec")] body [] none
        = String.intercalate "\n"
            ["# T\n", "> Source: http://x\n", "\n## Table of contents",
             "  - [Sec](#sec)", "", "\n---\n", pyStrip body] :=
  fun _ => ⟨rfl, rfl⟩

theorem filter_map_strip (lines : List String) :
    (lines.filter (fun l => pyStrip l != "")).map pyStrip
      = (lines.map pyStrip).filter (fun t => t != "") := by
  induction lines with
  | nil => rfl
  | cons a as ih =>
    by_cases h : (pyStrip a != "") = true
    · simp only [List.filter_cons, List.map_cons, h, if_true, ih]
    · simp only [Bool.not_eq_true] at h
      simp only [List.filter_cons, List.map_cons, h, Bool.false_eq_true,
        if_false, ih]

/-- Claim C3: with an existing URL-list file, the batch runner invokes the
pipeline on exactly the first `min(5, n)` non-empty trimmed lines of the
file (`n` the number of non-empty trimmed lines), in file order; blank or
whitespace-only lines are skipped and do not count toward the cap. -/
theorem batch_cap_spec :
    ∀ (lines : List String) (pipeline : Nat → String → PipelineResult),
      (main_run true lines pipeline).processed
          = ((lines.map pyStrip).filter (fun t => t != "")).take 5
      ∧ (main_run true lines pipeline).processed.length
          = min 5 ((lines.map pyStrip).filter (fun t => t != "")).length := by
  intro lines pipeline
  have hp : (main_run true lines pipeline).processed = (selectUrls lines).take 5 := rfl
  rw [hp, selectUrls, filter_map_strip]
  exact ⟨rfl, List.length_take ..⟩

/-- Claim C4: with an existing URL-list file, an exception in one pipeline
invocation is caught and logged with its URL, every selected URL is
processed no matter which invocations fail, and the exit status is 0
regardless of failures.  The concrete scenario: of `["a", " ", "b", "c"]`
with the second invocation raising, all three URLs are processed in order,
the failure is logged as `("b", "boom")`, the other two URLs still produce
their output files, and the exit code is 0. -/
theorem batch_isolation_spec :
    (∀ (lines : List String) (pipeline : Nat → String → PipelineResult),
        (main_run true lines pipeline).exitCode = 0
        ∧ (main_run true lines pipeline).processed = (selectUrls lines).take 5
        ∧ (main_run true lines pipeline).loggedFailures
            = ((selectUrls lines).take 5).enum.filterMap (fun p =>
                ((pipeline p.1 p.2).error).map (fun e => (p.2, e))))
    ∧ main_run true ["a", " ", "b", "c"] pipelineFail2
        = { exitCode := 0
            missingFileReported := false
            processed := ["a", "b", "c"]
            loggedFailures := [("b", "boom")]
            effects := [Effect.writeMd "a.md" "a", Effect.writeMd "c.md" "c"] } :=
  ⟨fun _ _ => ⟨rfl, rfl, rfl⟩, rfl⟩

/-- Claim C5: when the URL-list file does not exist, the run reports the
missing file and terminates with exit status 1, with no URL processed, no
failure logged and no filesystem effect — before the output directory or
any output file could be created. -/
theorem missing_file_spec :
    ∀ (lines : List String) (pipeline : Nat → String → PipelineResult),
      main_run false lines pipeline
        = { exitCode := 1
            missingFileReported := true
            processed := []
            loggedFailures := []
            effects := [] } :=
  fun _ _ => rfl

end ContentScraper

namespace ContentScraper

theorem collect_level_eq (lvl : Nat) (h1 : 1 ≤ lvl) (h6 : lvl ≤ 6)
    (doc : List (Nat × String)) :
    (doc.filter (fun h => h.1 == lvl)).filterMap (fun h =>
        let text := normalizeWs h.2
        if text = "" then none else some (lvl, text))
      = (docOrderOutline doc).filter (fun h => h.1 == lvl) := by
  induction doc with
  | nil => rfl
  | cons a as ih =>
    have houtline : docOrderOutline (a :: as)
        = (if 1 ≤ a.1 ∧ a.1 ≤ 6 ∧ normalizeWs a.2 ≠ "" then
            (a.1, normalizeWs a.2) :: docOrderOutline as
          else docOrderOutline as) := by
      unfold docOrderOutline
      rw [List.filterMap_cons]
      by_cases hc : 1 ≤ a.1 ∧ a.1 ≤ 6 ∧ normalizeWs a.2 ≠ ""
      · rw [if_pos hc, if_pos hc]
      · rw [if_neg hc, if_neg hc]
    by_cases ha : a.1 = lvl
    · have hstep : (a :: as).filter (fun h => h.1 == lvl)
          = a :: as.filter (fun h => h.1 == lvl) := by
        simp [List.filter_cons, ha]
      by_cases ht : normalizeWs a.2 = ""
      · rw [houtline, if_neg (by simp [ht]), hstep, List.filterMap_cons]
        have hfa : (let text := normalizeWs a.2
            if text = "" then none else some (lvl, text))
              = (none : Option (Nat × String)) := by
          simp [ht]
        rw [hfa]
        exact ih
      · have hc : 1 ≤ a.1 ∧ a.1 ≤ 6 ∧ normalizeWs a.2 ≠ "" :=
          ⟨by omega, by omega, ht⟩
        rw [houtline, if_pos hc, hstep, List.filterMap_cons]
        have hfa : (let text := normalizeWs a.2
            if text = "" then none else some (lvl, text))
              = some (lvl, normalizeWs a.2) := by
          simp [ht]
        rw [hfa]
        have hstep2 : ((a.1, normalizeWs a.2) :: docOrderOutline as).filter
              (fun h => h.1 == lvl)
            = (a.1, normalizeWs a.2) :: (docOrderOutline as).filter
              (fun h => h.1 == lvl) := by
          simp [List.filter_cons, ha]
        rw [hstep2, ha]
        exact congrArg (List.cons (lvl, normalizeWs a.2)) ih
    · have hb : (a.1 == lvl) = false := by simpa using ha
      have hstep3 : (a :: as).filter (fun h => h.1 == lvl)
          = as.filter (fun h => h.1 == lvl) := by
        simp [List.filter_cons, hb]
      rw [hstep3, houtline]
      by_cases hc : 1 ≤ a.1 ∧ a.1 ≤ 6 ∧ normalizeWs a.2 ≠ ""
      · rw [if_pos hc]
        have hstep4 : ((a.1, normalizeWs a.2) :: docOrderOutline as).filter
              (fun h => h.1 == lvl)
            = (docOrderOutline as).filter (fun h => h.1 == lvl) := by
          simp [List.filter_cons, hb]
        rw [hstep4]
        exact ih
      · rw [if_neg hc]
        exact ih

/-- Claim C2, counterexample: in a document whose headings are, in document
order, an `h2` then an `h1`, `collect_headings` does not return the
document-order outline (it returns the `h1` first). -/
theorem collect_headings_not_doc_order :
    decide (collect_headings [(2, "A"), (1, "B")]
        = docOrderOutline [(2, "A"), (1, "B")]) = false := by decide

/-- Claim C2, amended: `collect_headings` lists the headings of levels 1–6
grouped by level in ascending order — within each level in document order —
with each heading's text whitespace-normalized and headings whose text is
empty after normalization omitted.  (Document order across different levels
is not preserved.) -/
theorem collect_headings_grouped :
    ∀ doc : List (Nat × String),
      collect_headings doc
        = (List.range' 1 6).flatMap (fun lvl =>
            (docOrderOutline doc).filter (fun h => h.1 == lvl)) := by
  intro doc
  unfold collect_headings
  have e : List.range' 1 6 = [1, 2, 3, 4, 5, 6] := rfl
  rw [e]
  simp only [List.flatMap_cons, List.flatMap_nil, List.append_nil]
  rw [collect_level_eq 1 (by omega) (by omega) doc,
    collect_level_eq 2 (by omega) (by omega) doc,
    collect_level_eq 3 (by omega) (by omega) doc,
    collect_level_eq 4 (by omega) (by omega) doc,
    collect_level_eq 5 (by omega) (by omega) doc,
    collect_level_eq 6 (by omega) (by omega) doc]

end ContentScraper

namespace ContentScraper

/-- Claim C8, counterexample: with a name=description tag present whose
content attribute is empty and an og:description tag with content `"x"`,
the code extracts no description at all, while the claimed rule ("first of
the two tags with non-empty content") selects `"x"`. -/
theorem meta_desc_counterexample :
    decide (extract_meta_desc_opt (some ⟨some ""⟩) (some ⟨some "x"⟩)
        = specMetaDesc (some ⟨some ""⟩) (some ⟨some "x"⟩)) = false := by decide

/-- Claim C8, amended: the meta description comes from the first of the two
tags that was found, regardless of its content — og:description is never
consulted when a name=description tag exists (first conjunct); a
description is present exactly when that first found tag has a non-empty
content attribute whose stripped value is also non-empty, and then it is
the stripped content (second conjunct). -/
theorem meta_desc_first_found :
    (∀ (t : MetaTag) (og : Option MetaTag),
        extract_meta_desc (some t) og = extract_meta_desc (some t) none)
    ∧ (∀ d o : Option MetaTag,
        extract_meta_desc_opt d o
          = (match (match d with | some t => some t | none => o) with
             | some t =>
               (match t.content with
                | some c =>
                  if c = "" then none
                  else if pyStrip c = "" then none else some (pyStrip c)
                | none => none)
             | none => none)) := by
  refine ⟨fun t og => rfl, ?_⟩
  intro d o
  rcases d with _ | ⟨tc⟩
  · rcases o with _ | ⟨oc⟩
    · rfl
    · rcases oc with _ | c
      · rfl
      · by_cases hc : c = ""
        · subst hc; rfl
        · simp [extract_meta_desc_opt, extract_meta_desc, hc]
  · rcases tc with _ | c
    · rfl
    · by_cases hc : c = ""
      · subst hc; rfl
      · simp [extract_meta_desc_opt, extract_meta_desc, hc]

end ContentScraper

namespace ContentScraper

/-- Claim C9: whenever a `scrape_url` invocation raises (fetch, extraction
or rendering), no Markdown file is written for it; when it succeeds,
exactly one Markdown file is written and that write is the final
filesystem effect.  The concrete environment `envOrphan` — which fails
after the screenshot is taken — shows that a screenshot written earlier
may remain as an orphan while no Markdown file is created. -/
theorem scrape_no_partial_output :
    (∀ (url : String) (env : ScrapeEnv) (w : Nat) (sc sh : Bool),
        ((scrape_url url env w sc sh).effects.filter isMdWrite).length
            = (if (scrape_url url env w sc sh).error = none then 1 else 0)
        ∧ (scrape_url url env w sc sh).effects.getLast?.map isMdWrite
            = some ((scrape_url url env w sc sh).error == none))
    ∧ (scrape_url "u" envOrphan 0 false true).error = some "close failed"
    ∧ (scrape_url "u" envOrphan 0 false true).effects.filter isShotWrite
        = [Effect.writeShot "t.png"]
    ∧ (scrape_url "u" envOrphan 0 false true).effects.filter isMdWrite = [] := by
  refine ⟨?_, by decide, by decide, by decide⟩
  intro url env w sc sh
  obtain ⟨nav, readab, conv, tbls, shoot, close, netloc, upath, files, assetFiles⟩ := env
  simp only [scrape_url]
  rcases nav with e | pd
  · exact ⟨rfl, rfl⟩
  · rcases readab with er | st
    · cases hconv : conv pd.bodyFallback with
      | error e => simp only [hconv]; exact ⟨rfl, rfl⟩
      | ok mdoc =>
        simp only [hconv]
        cases sh with
        | false =>
          rcases close with e | u
          · exact ⟨rfl, rfl⟩
          · exact ⟨rfl, rfl⟩
        | true =>
          rcases shoot with e | u
          · exact ⟨rfl, rfl⟩
          · rcases close with e | u
            · exact ⟨rfl, rfl⟩
            · exact ⟨rfl, rfl⟩
    · cases hconv : conv st.1 with
      | error e => simp only [hconv]; exact ⟨rfl, rfl⟩
      | ok mdoc =>
        simp only [hconv]
        cases sh with
        | false =>
          rcases close with e | u
          · exact ⟨rfl, rfl⟩
          · exact ⟨rfl, rfl⟩
        | true =>
          rcases shoot with e | u
          · exact ⟨rfl, rfl⟩
          · rcases close with e | u
            · exact ⟨rfl, rfl⟩
            · exact ⟨rfl, rfl⟩

end ContentScraper

namespace ContentScraper

theorem slugify_data_ne_nil (s : String) : (slugify s).data ≠ [] := by
  have h := isValidSlug_slugify s
  simp only [isValidSlug, Bool.and_eq_true] at h
  intro hc
  have h1 := h.1.1.1.1
  rw [hc] at h1
  simp at h1

/-- Claim C10: the output document's base filename is the slug of the
resolved title truncated to its first 80 characters; since `slugify` never
returns an empty string, the `or "page"` fallback after truncation is
unreachable (first conjunct).  The truncated slug can be a strict prefix
of the full slug and can end in a hyphen (`longTitle`, conjuncts 2–3).
The uniqueness suffixing is applied to the truncated name: on every
successful run, the Markdown file written is at
`unique_path files (base_name_of (resolve_title …)) ".md"` (last
conjunct). -/
theorem base_name_truncation :
    (∀ title : String, base_name_of title = ⟨(slugify title).data.take 80⟩)
    ∧ base_name_of longTitle ++ "b" = slugify longTitle
    ∧ (base_name_of longTitle).data.getLast? = some '-'
    ∧ (∀ (pd : PageData) (readab : Except String (String × String))
        (conv : String → String) (tbls : Except String (List String))
        (netloc upath url : String) (files assetFiles : List String)
        (w : Nat) (sc : Bool),
        ∃ c, (scrape_url url
            ⟨Except.ok pd, readab, fun h => Except.ok (conv h), tbls,
             Except.ok (), Except.ok (), netloc, upath, files, assetFiles⟩
            w sc false).effects.filter isMdWrite
          = [Effect.writeMd
              (unique_path files
                (base_name_of (resolve_title pd.title readab netloc upath))
                ".md") c]) := by
  refine ⟨?_, by decide, by decide, ?_⟩
  · intro title
    have hnotmt : (⟨(slugify title).data.take 80⟩ : String) ≠ "" := by
      intro h
      have hd := congrArg String.data h
      cases hdata : (slugify title).data with
      | nil => exact slugify_data_ne_nil title hdata
      | cons c rest =>
        rw [hdata] at hd
        simp [List.take_succ_cons] at hd
    unfold base_name_of
    rw [if_neg hnotmt]
  · intro pd readab conv tbls netloc upath url files assetFiles w sc
    exact ⟨_, rfl⟩

end ContentScraper
